import Mathlib

/-!
Verification of the solana-stablecoin-standard backend and SDK codec layer.

Shallow embedding of:
- `src/backend/src/services/event-listener.ts` (Borsh read helpers, event
  decoder, discriminator map, `EventListener.processLog`),
- `src/backend/src/db/schema.ts` (`insertEvent`, `insertOperation` with
  `INSERT OR IGNORE` on a UNIQUE signature column),
- `src/backend/src/services/webhook.ts` (`WebhookService.dispatch`,
  `WebhookService.register`),
- `src/sdk/core/src/utils.ts` (`serializeString`, `serializeU64`,
  `serializeI64`, `anchorDisc`),
- `src/sdk/core/src/roles.ts` (`RoleManager.updateMinter`, the variant
  taking an optional epoch duration).

Node `Buffer` values are modelled as `List Nat` of byte values; JavaScript
strings that only carry opaque text (URLs, signatures, event names) are
Lean `String`s, while strings that pass through the UTF-8 codec (the
payload of `serializeString` / `readString`) are modelled by their UTF-8
byte sequences.  SHA-256 is kept abstract as a parameter
`h : String → List Nat`; every definition that uses a discriminator is
parametrised by it.
-/

namespace SSS

/-- Little-endian value of a byte list (how Node reads multi-byte ints). -/
def leVal : List Nat → Nat
  | [] => 0
  | b :: bs => b + 256 * leVal bs

/-- Computation `leBytes k n`: the `k` little-endian bytes of `n`
(how Node `writeBigUInt64LE` and `writeUInt32LE` lay out an integer). -/
def leBytes : Nat → Nat → List Nat
  | 0, _ => []
  | k + 1, n => n % 256 :: leBytes k (n / 256)

/-- Model of `Buffer.subarray(offset, offset + count)`: Node clamps out-of-range
bounds, so the result may be shorter than `count`. -/
def slice (data : List Nat) (offset count : Nat) : List Nat :=
  (data.drop offset).take count

/-- Model of `readPubkey` (event-listener.ts): `new PublicKey(data.subarray(o, o+32))`
then base58.  `PublicKey` accepts any input of at most 32 bytes, and the
clamped subarray never exceeds 32 bytes, so this read never throws; the
key value is modelled by the raw byte slice (base58 rendering is an
injective external codec). -/
def readPubkey (data : List Nat) (offset : Nat) : List Nat × Nat :=
  (slice data offset 32, offset + 32)

/-- Model of `readU64` (event-listener.ts): `data.readBigUInt64LE(offset)` throws a
RangeError when fewer than 8 bytes remain; on success the decimal string
of the value is returned. -/
def readU64 (data : List Nat) (offset : Nat) : Except Unit (String × Nat) :=
  if offset + 8 ≤ data.length then
    .ok (toString (leVal (slice data offset 8)), offset + 8)
  else .error ()

/-- Signed value of an unsigned 64-bit reading (two..s-complement). -/
def i64OfU64 (u : Nat) : Int :=
  if u < 2 ^ 63 then (u : Int) else (u : Int) - 2 ^ 64

/-- Model of `readI64` (event-listener.ts): `data.readBigInt64LE(offset)`, RangeError
when fewer than 8 bytes remain. -/
def readI64 (data : List Nat) (offset : Nat) : Except Unit (String × Nat) :=
  if offset + 8 ≤ data.length then
    .ok (toString (i64OfU64 (leVal (slice data offset 8))), offset + 8)
  else .error ()

/-- Model of `readBool` (event-listener.ts): `data[offset] !== 0`.  Indexing a Node
`Buffer` out of bounds yields `undefined`, and `undefined !== 0` is
`true`, so the out-of-bounds case produces `true` and never throws. -/
def readBool (data : List Nat) (offset : Nat) : Bool × Nat :=
  ((data.get? offset).elim true (fun b => b ≠ 0), offset + 1)

/-- Model of `readString` (event-listener.ts): `data.readUInt32LE(offset)` (RangeError
when fewer than 4 bytes remain) then a clamped subarray of the declared
length, decoded as UTF-8; the offset advances by the declared length even
when the subarray was clamped short. -/
def readString (data : List Nat) (offset : Nat) :
    Except Unit (List Nat × Nat) :=
  if offset + 4 ≤ data.length then
    let len := leVal (slice data offset 4)
    .ok (slice data (offset + 4) len, offset + 4 + len)
  else .error ()

/-- The 13 event names of `EVENT_NAMES` (event-listener.ts). -/
inductive EventName where
  | stablecoinInitialized
  | tokensMinted
  | tokensBurned
  | accountFrozen
  | accountThawed
  | stablecoinPaused
  | stablecoinUnpaused
  | rolesUpdated
  | minterUpdated
  | authorityTransferred
  | addedToBlacklist
  | removedFromBlacklist
  | tokensSeized
deriving DecidableEq

def eventNameStr : EventName → String
  | .stablecoinInitialized => "StablecoinInitialized"
  | .tokensMinted => "TokensMinted"
  | .tokensBurned => "TokensBurned"
  | .accountFrozen => "AccountFrozen"
  | .accountThawed => "AccountThawed"
  | .stablecoinPaused => "StablecoinPaused"
  | .stablecoinUnpaused => "StablecoinUnpaused"
  | .rolesUpdated => "RolesUpdated"
  | .minterUpdated => "MinterUpdated"
  | .authorityTransferred => "AuthorityTransferred"
  | .addedToBlacklist => "AddedToBlacklist"
  | .removedFromBlacklist => "RemovedFromBlacklist"
  | .tokensSeized => "TokensSeized"

def EVENT_NAMES : List EventName :=
  [.stablecoinInitialized, .tokensMinted, .tokensBurned, .accountFrozen,
   .accountThawed, .stablecoinPaused, .stablecoinUnpaused, .rolesUpdated,
   .minterUpdated, .authorityTransferred, .addedToBlacklist,
   .removedFromBlacklist, .tokensSeized]

/-- Primitive field kinds consumed by `decodeEvent`. -/
inductive FieldTy where
  | pk
  | u64
  | i64
  | boolTy
  | strTy
deriving DecidableEq

/-- Decoded field values (readString output stays at the UTF-8 byte level,
readU64/readI64 produce decimal strings as in the source). -/
inductive FieldVal where
  | pk (bytes : List Nat)
  | num (v : String)
  | flag (b : Bool)
  | str (bytes : List Nat)
deriving DecidableEq

/-- The ordered field layout of each `case` block of `decodeEvent`
(event-listener.ts lines 70-182), in source order. -/
def eventSchema : EventName → List (String × FieldTy)
  | .stablecoinInitialized =>
      [("stablecoin", .pk), ("mint", .pk), ("authority", .pk),
       ("name", .strTy), ("symbol", .strTy), ("is_sss2", .boolTy),
       ("timestamp", .i64)]
  | .tokensMinted =>
      [("stablecoin", .pk), ("minter", .pk), ("recipient", .pk),
       ("amount", .u64), ("total_minted", .u64), ("timestamp", .i64)]
  | .tokensBurned =>
      [("stablecoin", .pk), ("burner", .pk), ("amount", .u64),
       ("total_burned", .u64), ("timestamp", .i64)]
  | .accountFrozen =>
      [("stablecoin", .pk), ("account", .pk), ("frozen_by", .pk),
       ("timestamp", .i64)]
  | .accountThawed =>
      [("stablecoin", .pk), ("account", .pk), ("thawed_by", .pk),
       ("timestamp", .i64)]
  | .stablecoinPaused =>
      [("stablecoin", .pk), ("paused_by", .pk), ("timestamp", .i64)]
  | .stablecoinUnpaused =>
      [("stablecoin", .pk), ("unpaused_by", .pk), ("timestamp", .i64)]
  | .rolesUpdated =>
      [("stablecoin", .pk), ("holder", .pk), ("is_minter", .boolTy),
       ("is_burner", .boolTy), ("is_pauser", .boolTy),
       ("is_blacklister", .boolTy), ("is_seizer", .boolTy),
       ("updated_by", .pk), ("timestamp", .i64)]
  | .minterUpdated =>
      [("stablecoin", .pk), ("minter", .pk), ("new_quota", .u64),
       ("updated_by", .pk), ("timestamp", .i64)]
  | .authorityTransferred =>
      [("stablecoin", .pk), ("previous_authority", .pk),
       ("new_authority", .pk), ("timestamp", .i64)]
  | .addedToBlacklist =>
      [("stablecoin", .pk), ("address", .pk), ("reason", .strTy),
       ("blacklisted_by", .pk), ("timestamp", .i64)]
  | .removedFromBlacklist =>
      [("stablecoin", .pk), ("address", .pk), ("removed_by", .pk),
       ("timestamp", .i64)]
  | .tokensSeized =>
      [("stablecoin", .pk), ("from", .pk), ("to", .pk), ("amount", .u64),
       ("seized_by", .pk), ("timestamp", .i64)]

/-- Decode one field at an offset; an uncaught Node RangeError is the
`Except.error` case. -/
def decodeField (ty : FieldTy) (data : List Nat) (offset : Nat) :
    Except Unit (FieldVal × Nat) :=
  match ty with
  | .pk => let r := readPubkey data offset; .ok (.pk r.1, r.2)
  | .u64 => (readU64 data offset).map fun r => (.num r.1, r.2)
  | .i64 => (readI64 data offset).map fun r => (.num r.1, r.2)
  | .boolTy => let r := readBool data offset; .ok (.flag r.1, r.2)
  | .strTy => (readString data offset).map fun r => (.str r.1, r.2)

/-- Sequentially consume fields per the schema, as the statement sequence in
each `case` block of `decodeEvent` does; the first thrown RangeError aborts
the whole decode, discarding every field read so far. -/
def decodeFieldsFrom : List (String × FieldTy) → List Nat → Nat →
    Except Unit (List (String × FieldVal) × Nat)
  | [], _, offset => .ok ([], offset)
  | (name, ty) :: rest, data, offset =>
    match decodeField ty data offset with
    | .error e => .error e
    | .ok (v, offset1) =>
      match decodeFieldsFrom rest data offset1 with
      | .error e => .error e
      | .ok (fs, offset2) => .ok ((name, v) :: fs, offset2)

/-- Model of `decodeEvent(name, data)` (event-listener.ts): the field map, or the
propagated exception. -/
def decodeEvent (name : EventName) (data : List Nat) :
    Except Unit (List (String × FieldVal)) :=
  (decodeFieldsFrom (eventSchema name) data 0).map (·.1)

/-- Model of `DISCRIMINATOR_MAP` (event-listener.ts lines 29-34): one entry per event
name, keyed by the first 8 bytes of `sha256("event:" ++ name)`.  The hash
is the abstract parameter `h`; keys are kept as byte lists (the source
renders them in hex, an injective encoding of byte values). -/
def DISCRIMINATOR_MAP (h : String → List Nat) : List (List Nat × EventName) :=
  EVENT_NAMES.map fun n => ((h ("event:" ++ eventNameStr n)).take 8, n)

/-- Lookup `DISCRIMINATOR_MAP.get(disc)`. -/
def lookupDisc (h : String → List Nat) (key : List Nat) : Option EventName :=
  ((DISCRIMINATOR_MAP h).find? fun p => p.1 = key).map (·.2)

/-- Model of `decodeAnchorEvent` (event-listener.ts lines 354-370): fewer than 8
bytes or an unknown discriminator yield `null`; any exception thrown by
the field reads is caught and also yields `null`. -/
def decodeAnchorEvent (h : String → List Nat) (buffer : List Nat) :
    Option (EventName × List (String × FieldVal)) :=
  if buffer.length < 8 then none
  else
    match lookupDisc h (buffer.take 8) with
    | none => none
    | some eventName =>
      match decodeEvent eventName (buffer.drop 8) with
      | .ok fields => some (eventName, fields)
      | .error _ => none

/-- Bytes a schema requires of a buffer, walking the declared layout and
reading length prefixes of strings from the buffer itself (the final
offset `decodeFieldsFrom` would reach). -/
def requiredFrom : List (String × FieldTy) → List Nat → Nat → Nat
  | [], _, offset => offset
  | (_, .pk) :: rest, data, offset => requiredFrom rest data (offset + 32)
  | (_, .u64) :: rest, data, offset => requiredFrom rest data (offset + 8)
  | (_, .i64) :: rest, data, offset => requiredFrom rest data (offset + 8)
  | (_, .boolTy) :: rest, data, offset => requiredFrom rest data (offset + 1)
  | (_, .strTy) :: rest, data, offset =>
    requiredFrom rest data (offset + 4 + leVal (slice data offset 4))

/-- Whether the last field of a schema is an i64 (every registered event
schema ends with an i64 timestamp). -/
def endsI64 : List (String × FieldTy) → Bool
  | [] => false
  | [(_, ty)] => ty = .i64
  | _ :: rest => endsI64 rest

/-- The offset a successful read of one field leaves the cursor at. -/
def fieldAdvance (ty : FieldTy) (data : List Nat) (offset : Nat) : Nat :=
  match ty with
  | .pk => offset + 32
  | .u64 => offset + 8
  | .i64 => offset + 8
  | .boolTy => offset + 1
  | .strTy => offset + 4 + leVal (slice data offset 4)

/-! ### Audit store (db/schema.ts) -/

/-- A row of the `events` table (db/schema.ts lines 20-29); the `id` and
`created_at` columns are database-generated and not modelled. -/
structure EventRow where
  event_type : String
  stablecoin : Option FieldVal
  data : List (String × FieldVal)
  signature : String
  slot : Nat
  timestamp : Int
deriving DecidableEq

/-- A row of the `operations` table (db/schema.ts lines 35-45); `status`
always takes its SQL default value `confirmed`. -/
structure OperationRow where
  operation : String
  mint : Option FieldVal
  actor : Option FieldVal
  amount : Option FieldVal
  target : Option FieldVal
  signature : String
  status : String
deriving DecidableEq

/-- SQL `INSERT OR IGNORE` against a `UNIQUE` signature column: when a row with
the same signature exists the statement succeeds without changing the
table; otherwise the row is appended. -/
def insertEventRow (row : EventRow) (table : List EventRow) : List EventRow :=
  if table.any fun r => r.signature == row.signature then table
  else table ++ [row]

/-- Model of `insertEvent` (db/schema.ts lines 61-73). -/
def insertEvent (eventType : String) (stablecoin : Option FieldVal)
    (data : List (String × FieldVal)) (signature : String) (slot : Nat)
    (timestamp : Int) (table : List EventRow) : List EventRow :=
  insertEventRow ⟨eventType, stablecoin, data, signature, slot, timestamp⟩ table

/-- SQL `INSERT OR IGNORE` for the operations table. -/
def insertOperationRow (row : OperationRow) (table : List OperationRow) :
    List OperationRow :=
  if table.any fun r => r.signature == row.signature then table
  else table ++ [row]

/-- Model of `insertOperation` (db/schema.ts lines 75-87). -/
def insertOperation (operation : String) (mint : Option FieldVal)
    (actor : Option FieldVal) (signature : String) (amount : Option FieldVal)
    (target : Option FieldVal) (table : List OperationRow) :
    List OperationRow :=
  insertOperationRow
    ⟨operation, mint, actor, amount, target, signature, "confirmed"⟩ table

/-! ### Operation projection (event-listener.ts OPERATION_MAP) -/

/-- JavaScript property access `f.<key>` on a decoded field object. -/
def jsField (fields : List (String × FieldVal)) (key : String) :
    Option FieldVal :=
  (fields.find? fun p => p.1 == key).map (·.2)

/-- One entry of `OPERATION_MAP` (event-listener.ts lines 186-191). -/
structure OperationMapping where
  operation : String
  actor : List (String × FieldVal) → Option FieldVal
  amount : List (String × FieldVal) → Option FieldVal
  target : List (String × FieldVal) → Option FieldVal

/-- Model of `OPERATION_MAP` (event-listener.ts lines 193-272). -/
def OPERATION_MAP : EventName → OperationMapping
  | .stablecoinInitialized =>
      ⟨"initialize", (jsField · "authority"), fun _ => none, fun _ => none⟩
  | .tokensMinted =>
      ⟨"mint", (jsField · "minter"), (jsField · "amount"),
       (jsField · "recipient")⟩
  | .tokensBurned =>
      ⟨"burn", (jsField · "burner"), (jsField · "amount"), fun _ => none⟩
  | .accountFrozen =>
      ⟨"freeze", (jsField · "frozen_by"), fun _ => none,
       (jsField · "account")⟩
  | .accountThawed =>
      ⟨"thaw", (jsField · "thawed_by"), fun _ => none,
       (jsField · "account")⟩
  | .stablecoinPaused =>
      ⟨"pause", (jsField · "paused_by"), fun _ => none, fun _ => none⟩
  | .stablecoinUnpaused =>
      ⟨"unpause", (jsField · "unpaused_by"), fun _ => none, fun _ => none⟩
  | .tokensSeized =>
      ⟨"seize", (jsField · "seized_by"), (jsField · "amount"),
       (jsField · "from")⟩
  | .addedToBlacklist =>
      ⟨"blacklist_add", (jsField · "blacklisted_by"), fun _ => none,
       (jsField · "address")⟩
  | .removedFromBlacklist =>
      ⟨"blacklist_remove", (jsField · "removed_by"), fun _ => none,
       (jsField · "address")⟩
  | .authorityTransferred =>
      ⟨"transfer_authority", (jsField · "previous_authority"), fun _ => none,
       (jsField · "new_authority")⟩
  | .rolesUpdated =>
      ⟨"update_roles", (jsField · "updated_by"), fun _ => none,
       (jsField · "holder")⟩
  | .minterUpdated =>
      ⟨"update_minter", (jsField · "updated_by"), (jsField · "new_quota"),
       (jsField · "minter")⟩

/-! ### Webhook service (services/webhook.ts) -/

/-- A row of the `webhooks` table. -/
structure WebhookConfig where
  id : Nat
  url : String
  events : String
  active : Nat
  secret : Option String
deriving DecidableEq

/-- Outcome of one `fetch` call: an HTTP response (`ok` is the 2xx test) or
a thrown network error.  In the source both failure cases are caught or
logged inside the loop body, so the loop always continues. -/
inductive FetchOutcome where
  | resp (ok : Bool)
  | netError
deriving DecidableEq

/-- One delivery attempt: the POST the dispatcher sends to a registration,
with the body `\x7b event, data: payload, timestamp \x7d`, the optional
`X-Webhook-Secret` header, and the observed outcome. -/
structure Attempt where
  webhookId : Nat
  url : String
  secretHeader : Option String
  event : String
  fields : List (String × FieldVal)
  signature : String
  timestamp : Int
  outcome : FetchOutcome
deriving DecidableEq

/-- JavaScript `events.split(",")` (structural recursion over the
characters; a trailing separator yields a final empty piece, as in JS). -/
def splitCommaAux : List Char → List Char → List String
  | [], cur => [String.mk cur.reverse]
  | c :: cs, cur =>
    if c = ',' then String.mk cur.reverse :: splitCommaAux cs []
    else splitCommaAux cs (c :: cur)

/-- JavaScript `String.prototype.trim`. -/
def jsTrim (s : String) : String :=
  String.mk (((s.data.dropWhile Char.isWhitespace).reverse.dropWhile
    Char.isWhitespace).reverse)

/-- The subscription test of `dispatch` (webhook.ts lines 25-26):
`events.split(",").map(trim)` contains the wildcard or the event type. -/
def subscribedTo (w : WebhookConfig) (eventType : String) : Bool :=
  let subs := (splitCommaAux w.events.data []).map jsTrim
  subs.contains "*" || subs.contains eventType

/-- The loop body of `dispatch` (webhook.ts lines 24-46) over the rows the
`WHERE active = 1` query returned: unsubscribed rows are skipped via
`continue`; for subscribed rows one `fetch` is attempted, its failure
caught (or merely logged), after which the loop proceeds. -/
def dispatchLoop (eventType : String) (fields : List (String × FieldVal))
    (signature : String) (nowMs : Int) (outcomes : Nat → FetchOutcome) :
    List WebhookConfig → List Attempt
  | [] => []
  | w :: ws =>
    if subscribedTo w eventType then
      ⟨w.id, w.url, w.secret, eventType, fields, signature, nowMs,
        outcomes w.id⟩ ::
        dispatchLoop eventType fields signature nowMs outcomes ws
    else dispatchLoop eventType fields signature nowMs outcomes ws

/-- Model of `WebhookService.dispatch` (webhook.ts lines 18-47): select the active
registrations, then run the delivery loop. -/
def dispatch (eventType : String) (fields : List (String × FieldVal))
    (signature : String) (nowMs : Int) (outcomes : Nat → FetchOutcome)
    (webhooks : List WebhookConfig) : List Attempt :=
  dispatchLoop eventType fields signature nowMs outcomes
    (webhooks.filter fun w => w.active == 1)

/-- JavaScript `Array.prototype.join(",")`. -/
def joinComma : List String → String
  | [] => ""
  | [s] => s
  | s :: rest => s ++ "," ++ joinComma rest

/-- Model of `WebhookService.register` (webhook.ts lines 49-55): the stored row for a
registration; `id` is the database-assigned rowid and `active` takes its
SQL default 1. -/
def register (id : Nat) (url : String) (events : List String)
    (secret : Option String) : WebhookConfig :=
  ⟨id, url, joinComma events, 1, secret⟩

/-! ### Log stream listener (event-listener.ts EventListener.processLog) -/

/-- One program log line: either a line starting with `Program data:`
followed by base64 event bytes (held here already base64-decoded), or any
other line, which `processLog` skips. -/
inductive LogLine where
  | programData (bytes : List Nat)
  | other (s : String)

/-- The `logInfo` argument of `processLog`: transaction signature, the
transaction-level error flag, and the log lines. -/
structure LogInfo where
  signature : String
  err : Bool
  logs : List LogLine

/-- The mutable backend state `processLog` touches: the three tables plus
the stream of webhook delivery attempts made so far. -/
structure ListenerState where
  events : List EventRow
  operations : List OperationRow
  webhooks : List WebhookConfig
  attempts : List Attempt

/-- The body of the `for` loop of `processLog` (event-listener.ts lines
312-351) for one log line: decode, insert the event row (with the literal
slot `0` and the wall-clock timestamp), insert the operation projection,
and dispatch to webhooks. -/
def processLine (h : String → List Nat) (outcomes : Nat → FetchOutcome)
    (nowSec nowMs : Int) (signature : String) (st : ListenerState) :
    LogLine → ListenerState
  | .other _ => st
  | .programData bytes =>
    match decodeAnchorEvent h bytes with
    | none => st
    | some (ty, fields) =>
      let stablecoinKey := jsField fields "stablecoin"
      let st1 := { st with
        events := insertEvent (eventNameStr ty) stablecoinKey fields
          signature 0 nowSec st.events }
      let mapping := OPERATION_MAP ty
      let st2 := { st1 with
        operations := insertOperation mapping.operation stablecoinKey
          (mapping.actor fields) signature (mapping.amount fields)
          (mapping.target fields) st1.operations }
      { st2 with
        attempts := st2.attempts ++
          dispatch (eventNameStr ty) fields signature nowMs outcomes
            st2.webhooks }

/-- Model of `processLog` (event-listener.ts lines 309-352): discard notifications
with a transaction-level error, otherwise process each log line in
order. -/
def processLog (h : String → List Nat) (outcomes : Nat → FetchOutcome)
    (nowSec nowMs : Int) (st : ListenerState) (li : LogInfo) :
    ListenerState :=
  if li.err then st
  else li.logs.foldl (processLine h outcomes nowSec nowMs li.signature) st

/-! ### SDK serializers (sdk/core/src/utils.ts, sdk/core/src/roles.ts) -/

/-- Model of `serializeString` (utils.ts lines 12-17): 4-byte little-endian length
followed by the UTF-8 bytes (the string is modelled by those bytes). -/
def serializeString (s : List Nat) : List Nat :=
  leBytes 4 s.length ++ s

/-- Model of `serializeU64` (utils.ts lines 20-24): `writeBigUInt64LE` into an
8-byte buffer; Node rejects values outside `[0, 2^64)`. -/
def serializeU64 (n : Nat) : List Nat :=
  leBytes 8 n

/-- Model of `serializeI64` (utils.ts lines 27-31): `writeBigInt64LE`, which stores
the 8 little-endian bytes of the two..s-complement representation; Node
rejects values outside `[-2^63, 2^63)`. -/
def serializeI64 (i : Int) : List Nat :=
  leBytes 8 (i.emod (2 ^ 64)).toNat

/-- Model of `anchorDisc` (roles.ts lines 108-110): first 8 bytes of
`sha256("global:" ++ name)`, with the hash abstract. -/
def anchorDisc (h : String → List Nat) (name : String) : List Nat :=
  (h ("global:" ++ name)).take 8

/-- The instruction data built by `RoleManager.updateMinter` (roles.ts
lines 164-198): discriminator, quota as `writeBigUInt64LE`, then the
epoch duration as a Borsh `Option<i64>` (tag byte 0, or 1 followed by
`writeBigInt64LE`). -/
def updateMinterData (h : String → List Nat) (quota : Nat)
    (epochDuration : Option Int) : List Nat :=
  anchorDisc h "update_minter" ++ leBytes 8 quota ++
    (match epochDuration with
     | none => [0]
     | some d => 1 :: leBytes 8 (d.emod (2 ^ 64)).toNat)

/-- Spec-side little-endian layout of a 64-bit value, written out digit by
digit following the words of the spec. -/
def specLE64 (n : Nat) : List Nat :=
  [n % 256, n / 256 % 256, n / 256 ^ 2 % 256, n / 256 ^ 3 % 256,
   n / 256 ^ 4 % 256, n / 256 ^ 5 % 256, n / 256 ^ 6 % 256,
   n / 256 ^ 7 % 256]

/-- Spec-side two..s-complement representative of a signed 64-bit value. -/
def twosComplement64 (d : Int) : Nat :=
  if 0 ≤ d then d.toNat else (d + 2 ^ 64).toNat

/-- Spec-side Borsh `Option<i64>` encoding: byte 0 when absent, byte 1
followed by the 8-byte little-endian two..s-complement value when
present. -/
def borshOptionI64 : Option Int → List Nat
  | none => [0]
  | some d => 1 :: specLE64 (twosComplement64 d)

/-- Modelled from the spec (claim C8 wording): the expected update_minter
payload — first 8 bytes of `sha256("global:update_minter")`, the quota as
8-byte little-endian, then the Borsh `Option` encoding of the epoch
duration. -/
def updateMinterPayloadSpec (h : String → List Nat) (quota : Nat)
    (epochDuration : Option Int) : List Nat :=
  (h "global:update_minter").take 8 ++ specLE64 quota ++
    borshOptionI64 epochDuration

/-! ### Concrete inputs used in closed statements -/

/-- A degenerate stand-in hash sending every name to eight zero bytes. -/
def hashZero : String → List Nat := fun _ => List.replicate 8 0

/-- A stand-in hash giving the StablecoinPaused event a distinctive
discriminator of eight 1-bytes. -/
def hashPaused : String → List Nat := fun s =>
  if s = "event:StablecoinPaused" then List.replicate 8 1
  else List.replicate 8 0

/-- Delivery outcomes where every fetch throws a network error. -/
def outcomesNet : Nat → FetchOutcome := fun _ => .netError

/-- A recognized discriminator followed by only 4 payload bytes: too short
for every schema. -/
def bufShort : List Nat := List.replicate 12 0

/-- A full StablecoinPaused event buffer under `hashPaused`: the 8-byte
discriminator, two 32-byte keys and an 8-byte timestamp, all zero. -/
def bufPaused : List Nat := List.replicate 8 1 ++ List.replicate 72 0

/-- A registration subscribed to every event via the wildcard. -/
def wildcardHook : WebhookConfig :=
  ⟨1, "https://example.com/hook", "*", 1, none⟩

/-- The empty backend state. -/
def emptyState : ListenerState := ⟨[], [], [], []⟩

/-- A backend state with one wildcard registration and empty tables. -/
def hookState : ListenerState := ⟨[], [], [wildcardHook], []⟩

/-- The fields `decodeEvent` produces for the all-zero StablecoinPaused
payload. -/
def pausedFields : List (String × FieldVal) :=
  [("stablecoin", .pk (List.replicate 32 0)),
   ("paused_by", .pk (List.replicate 32 0)),
   ("timestamp", .num "0")]

/-- A notification carrying the StablecoinPaused buffer. -/
def pausedNotification : LogInfo :=
  ⟨"sig-1", false, [.programData bufPaused]⟩

/-- Number of rows of the events table carrying a given signature. -/
def countEventSig (s : String) (t : List EventRow) : Nat :=
  (t.filter fun r => r.signature == s).length

/-- Number of rows of the operations table carrying a given signature. -/
def countOperationSig (s : String) (t : List OperationRow) : Nat :=
  (t.filter fun r => r.signature == s).length

/-- Everything a delivery attempt carries except the observed outcome. -/
def attemptCore (a : Attempt) :
    Nat × String × Option String × String ×
      List (String × FieldVal) × String × Int :=
  (a.webhookId, a.url, a.secretHeader, a.event, a.fields, a.signature,
   a.timestamp)

/-! ### Little-endian helper lemmas -/

theorem leBytes_length (k n : Nat) : (leBytes k n).length = k := by
  induction k generalizing n with
  | zero => rfl
  | succ k ih => simp [leBytes, ih]

theorem leVal_leBytes (k n : Nat) (h : n < 256 ^ k) :
    leVal (leBytes k n) = n := by
  induction k generalizing n with
  | zero => simp [leBytes, leVal]; omega
  | succ k ih =>
    have hdiv : n / 256 < 256 ^ k := by
      rw [Nat.div_lt_iff_lt_mul (by norm_num)]
      calc n < 256 ^ (k + 1) := h
        _ = 256 ^ k * 256 := by ring
    simp [leBytes, leVal, ih (n / 256) hdiv]
    omega

theorem slice_zero_full (xs ys : List Nat) :
    slice (xs ++ ys) 0 xs.length = xs := by
  simp [slice, List.take_left]

theorem slice_after (xs ys : List Nat) (count : Nat) :
    slice (xs ++ ys) xs.length count = ys.take count := by
  simp [slice, List.drop_left]

theorem i64_twos_complement (i : Int) (h1 : -2 ^ 63 ≤ i) (h2 : i < 2 ^ 63) :
    (i.emod (2 ^ 64)).toNat < 256 ^ 8 ∧
    i64OfU64 (i.emod (2 ^ 64)).toNat = i ∧
    (i.emod (2 ^ 64)).toNat = twosComplement64 i := by
  unfold i64OfU64 twosComplement64
  have e64 : (2 : Int) ^ 64 = 18446744073709551616 := by norm_num
  have e63i : (2 : Int) ^ 63 = 9223372036854775808 := by norm_num
  have e8 : (256 : Nat) ^ 8 = 18446744073709551616 := by norm_num
  have e63n : (2 : Nat) ^ 63 = 9223372036854775808 := by norm_num
  have emod_eq : i.emod 18446744073709551616 =
      i % 18446744073709551616 := rfl
  simp only [e64, e63i, e63n, e8, emod_eq] at h1 h2 ⊢
  refine ⟨by omega, ?_, ?_⟩ <;> split <;> omega

/-! ### C9: serialization round-trips -/

/-- C9: serialization and deserialization are mutually inverse at each
primitive: `readU64` on `serializeU64 n` yields the decimal string of `n`
and advances 8 bytes; `readI64` on `serializeI64 i` yields the decimal
string of `i`; `readString` on `serializeString s` yields `s`; full
64-bit magnitude is preserved. -/
theorem serialize_read_roundtrip :
    (∀ n : Nat, n < 2 ^ 64 →
      readU64 (serializeU64 n) 0 = .ok (toString n, 8)) ∧
    (∀ i : Int, -2 ^ 63 ≤ i → i < 2 ^ 63 →
      readI64 (serializeI64 i) 0 = .ok (toString i, 8)) ∧
    (∀ s : List Nat, s.length < 2 ^ 32 →
      readString (serializeString s) 0 = .ok (s, 4 + s.length)) := by
  refine ⟨?_, ?_, ?_⟩
  · intro n hn
    have hlen : (serializeU64 n).length = 8 := leBytes_length 8 n
    have hslice : slice (serializeU64 n) 0 8 = serializeU64 n := by
      have := slice_zero_full (serializeU64 n) []
      simpa [hlen] using this
    rw [readU64, if_pos (by omega), hslice, serializeU64,
      leVal_leBytes 8 n (by norm_num at hn ⊢; omega)]
  · intro i h1 h2
    obtain ⟨hub, hrt, -⟩ := i64_twos_complement i h1 h2
    have hlen : (serializeI64 i).length = 8 := leBytes_length 8 _
    have hslice : slice (serializeI64 i) 0 8 = serializeI64 i := by
      have := slice_zero_full (serializeI64 i) []
      simpa [hlen] using this
    rw [readI64, if_pos (by omega), hslice, serializeI64,
      leVal_leBytes 8 _ hub, hrt]
  · intro s hs
    have hl4 : (leBytes 4 s.length).length = 4 := leBytes_length 4 _
    have hlen : (serializeString s).length = 4 + s.length := by
      simp [serializeString, hl4]
    have hpre : slice (serializeString s) 0 4 = leBytes 4 s.length := by
      have := slice_zero_full (leBytes 4 s.length) s
      simpa [serializeString, hl4] using this
    have hlenval : leVal (leBytes 4 s.length) = s.length :=
      leVal_leBytes 4 s.length (by norm_num at hs ⊢; omega)
    have hbody : slice (serializeString s) 4 s.length = s := by
      have := slice_after (leBytes 4 s.length) s s.length
      simpa [serializeString, hl4] using this
    rw [readString, if_pos (by omega)]
    simp only [hpre, hlenval, hbody]

/-- Closed instance of the round-trip theorem at concrete inputs. -/
theorem serialize_read_roundtrip_witness :
    readU64 (serializeU64 123) 0 = .ok ("123", 8) ∧
    readI64 (serializeI64 (-5)) 0 = .ok ("-5", 8) ∧
    readString (serializeString [1, 2, 3]) 0 = .ok ([1, 2, 3], 7) := by
  refine ⟨?_, ?_, ?_⟩
  · have e : toString (123 : Nat) = "123" := by decide
    have := serialize_read_roundtrip.1 123 (by norm_num)
    rwa [e] at this
  · have e : toString (-5 : Int) = "-5" := by decide
    have := serialize_read_roundtrip.2.1 (-5) (by norm_num) (by norm_num)
    rwa [e] at this
  · exact serialize_read_roundtrip.2.2 [1, 2, 3] (by norm_num)

/-! ### C8: update_minter payload layout -/

/-- C8: the update_minter instruction data equals the first 8 bytes of
`sha256("global:update_minter")`, then the quota as 8-byte little-endian,
then the Borsh `Option` encoding of the epoch duration (byte 0 when
absent, byte 1 followed by the 8-byte little-endian two..s-complement
value when present). -/
theorem updateMinter_payload (h : String → List Nat) (q : Nat)
    (d : Option Int) (hq : q < 2 ^ 64)
    (hd : ∀ v ∈ d, -2 ^ 63 ≤ v ∧ v < 2 ^ 63) :
    updateMinterData h q d = updateMinterPayloadSpec h q d := by
  have hle : ∀ m : Nat, leBytes 8 m = specLE64 m := by
    intro m
    simp only [leBytes, specLE64, Nat.div_div_eq_div_mul]
    norm_num
  have hs : ("global:" ++ "update_minter" : String) =
      "global:update_minter" := rfl
  cases d with
  | none =>
    simp [updateMinterData, updateMinterPayloadSpec, anchorDisc,
      borshOptionI64, hle, hs]
  | some v =>
    have hv := hd v (by simp)
    have htc : (v.emod (2 ^ 64)).toNat = twosComplement64 v :=
      (i64_twos_complement v hv.1 hv.2).2.2
    simp only [updateMinterData, updateMinterPayloadSpec, anchorDisc,
      borshOptionI64, hle, hs]
    rw [htc]

/-- Closed instance of the payload-layout theorem at concrete inputs. -/
theorem updateMinter_payload_witness :
    updateMinterData hashZero 1000 (some (-3)) =
      updateMinterPayloadSpec hashZero 1000 (some (-3)) :=
  updateMinter_payload hashZero 1000 (some (-3)) (by norm_num)
    (by intro v hv; simp at hv; omega)

/-! ### C10: the boolean reader never fails -/

/-- C10: `readBool` is total: it advances one byte, returns `false` exactly
when the byte at the offset is 0, returns `true` when the offset is past
the end of the buffer (the out-of-bounds `undefined` compares non-zero),
and inside the field decoder a boolean field therefore never produces a
decode error. -/
theorem readBool_never_fails (data : List Nat) (offset : Nat) :
    (readBool data offset).2 = offset + 1 ∧
    ((readBool data offset).1 = false ↔ data.get? offset = some 0) ∧
    (data.length ≤ offset → (readBool data offset).1 = true) ∧
    decodeField .boolTy data offset =
      .ok (.flag (readBool data offset).1, offset + 1) := by
  refine ⟨rfl, ?_, ?_, rfl⟩
  · cases hg : data.get? offset with
    | none =>
      rw [List.get?_eq_getElem?] at hg
      simp [readBool, List.get?_eq_getElem?, hg]
    | some b =>
      rw [List.get?_eq_getElem?] at hg
      simp [readBool, List.get?_eq_getElem?, hg]
  · intro hlen
    have hg : data.get? offset = none := List.get?_eq_none.mpr hlen
    rw [List.get?_eq_getElem?] at hg
    simp [readBool, hg]

/-- Closed instance: reading a boolean past the end of an empty buffer
yields `true`. -/
theorem readBool_never_fails_witness :
    (readBool ([] : List Nat) 0).1 = true :=
  (readBool_never_fails [] 0).2.2.1 (by decide)

/-! ### C5: unrecognized inputs yield null -/

/-- C5: the registry has 13 discriminators; the decoder returns `none`
rather than throwing, both when fewer than 8 bytes are present and when
the first 8 bytes match none of the registered event discriminators. -/
theorem decoder_unrecognized (h : String → List Nat) (buffer : List Nat) :
    (DISCRIMINATOR_MAP h).length = 13 ∧
    (buffer.length < 8 → decodeAnchorEvent h buffer = none) ∧
    ((∀ n ∈ EVENT_NAMES,
        buffer.take 8 ≠ (h ("event:" ++ eventNameStr n)).take 8) →
      decodeAnchorEvent h buffer = none) := by
  refine ⟨by simp [DISCRIMINATOR_MAP, EVENT_NAMES], ?_, ?_⟩
  · intro hlt
    simp [decodeAnchorEvent, hlt]
  · intro hne
    have hlook : lookupDisc h (buffer.take 8) = none := by
      rw [lookupDisc, Option.map_eq_none']
      rw [List.find?_eq_none]
      intro p hp
      simp only [DISCRIMINATOR_MAP, List.mem_map] at hp
      obtain ⟨n, hn, rfl⟩ := hp
      simp only [decide_eq_true_eq]
      exact fun he => hne n hn he.symm
    rw [decodeAnchorEvent]
    split
    · rfl
    · rw [hlook]

/-- Closed instances: a 3-byte buffer and an unknown 9-byte discriminator
both decode to `none`. -/
theorem decoder_unrecognized_witness :
    decodeAnchorEvent hashZero [1, 2, 3] = none ∧
    decodeAnchorEvent hashZero (List.replicate 9 7) = none :=
  ⟨(decoder_unrecognized hashZero [1, 2, 3]).2.1 (by decide),
   (decoder_unrecognized hashZero (List.replicate 9 7)).2.2 (by decide)⟩

/-! ### Generic lemmas about INSERT OR IGNORE keyed on a unique column -/

theorem insertKey_dup {α : Type} (key : α → String)
    (ins : α → List α → List α)
    (hins : ∀ r t, ins r t =
      if t.any fun x => key x == key r then t else t ++ [r])
    (t : List α) (r r' : α) (hsig : key r' = key r) :
    ins r' (ins r t) = ins r t := by
  by_cases hany : (t.any fun x => key x == key r) = true
  · have h1 : ins r t = t := by rw [hins, if_pos hany]
    rw [h1, hins, hsig, if_pos hany]
  · have h1 : ins r t = t ++ [r] := by rw [hins, if_neg hany]
    have h2 : ((t ++ [r]).any fun x => key x == key r') = true := by
      simp [List.any_append, hsig]
    rw [h1, hins, if_pos h2]

theorem insertKey_count {α : Type} (key : α → String)
    (ins : α → List α → List α)
    (hins : ∀ r t, ins r t =
      if t.any fun x => key x == key r then t else t ++ [r])
    (s : String) (r : α) (t : List α) :
    ((ins r t).filter fun x => key x == s).length =
      if (t.filter fun x => key x == s).length = 0 ∧ key r = s then 1
      else (t.filter fun x => key x == s).length := by
  by_cases hany : (t.any fun x => key x == key r) = true
  · rw [hins, if_pos hany]
    by_cases hc : (t.filter fun x => key x == s).length = 0 ∧ key r = s
    · exfalso
      obtain ⟨hc0, hcr⟩ := hc
      obtain ⟨x, hx, hxk⟩ := List.any_eq_true.mp hany
      have hmem : x ∈ t.filter fun x => key x == s := by
        rw [List.mem_filter]
        refine ⟨hx, ?_⟩
        rw [beq_iff_eq] at hxk ⊢
        rw [hxk, hcr]
      have hpos : 0 < (t.filter fun x => key x == s).length :=
        List.length_pos.mpr (List.ne_nil_of_mem hmem)
      omega
    · rw [if_neg hc]
  · have hf : (t.any fun x => key x == key r) = false := by
      cases h : t.any fun x => key x == key r
      · rfl
      · exact absurd h hany
    rw [List.any_eq_false] at hf
    rw [hins, if_neg hany, List.filter_append, List.length_append]
    by_cases hr : key r = s
    · have h0 : (t.filter fun x => key x == s).length = 0 := by
        rw [List.length_eq_zero, List.filter_eq_nil_iff]
        intro a ha hak
        apply hf a ha
        rw [beq_iff_eq] at hak ⊢
        rw [hak, hr]
      simp [h0, hr]
    · have h1 : (([r].filter fun x => key x == s)).length = 0 := by
        simp [hr]
      rw [h1, if_neg fun hc => hr hc.2]
      omega

theorem insertKey_foldl {α : Type} (key : α → String)
    (ins : α → List α → List α)
    (hins : ∀ r t, ins r t =
      if t.any fun x => key x == key r then t else t ++ [r])
    (s : String) (calls : List α) :
    ∀ t : List α, (t.filter fun x => key x == s).length ≤ 1 →
      ((calls.foldl (fun tb c => ins c tb) t).filter
        fun x => key x == s).length ≤ 1 ∧
      (((t.filter fun x => key x == s).length = 1 ∨
          ∃ c ∈ calls, key c = s) →
        ((calls.foldl (fun tb c => ins c tb) t).filter
          fun x => key x == s).length = 1) := by
  induction calls with
  | nil =>
    intro t h0
    refine ⟨h0, ?_⟩
    rintro (h1 | ⟨c, hc, -⟩)
    · exact h1
    · exact absurd hc (List.not_mem_nil c)
  | cons c cs ih =>
    intro t h0
    have hcnt := insertKey_count key ins hins s c t
    have h0' : ((ins c t).filter fun x => key x == s).length ≤ 1 := by
      rw [hcnt]; split <;> omega
    simp only [List.foldl_cons]
    refine ⟨(ih (ins c t) h0').1, ?_⟩
    rintro (h1 | hex)
    · apply (ih (ins c t) h0').2
      left
      rw [hcnt]
      split
      · rfl
      · exact h1
    · obtain ⟨c', hc', hcs⟩ := hex
      rcases List.mem_cons.mp hc' with rfl | hmem
      · apply (ih (ins c' t) h0').2
        left
        by_cases hzero : (t.filter fun x => key x == s).length = 0
        · rw [hcnt, if_pos ⟨hzero, hcs⟩]
        · have h1 : (t.filter fun x => key x == s).length = 1 := by omega
          rw [hcnt]
          split
          · rfl
          · exact h1
      · exact (ih (ins c t) h0').2 (Or.inr ⟨c', hmem, hcs⟩)

/-! ### C1: idempotent persistence keyed on signature -/

/-- C1: inserting a second row with an already-present transaction
signature leaves each table unchanged (and raises no error, the insert
functions being total), and after any sequence of inserts containing a
given signature, exactly one row with that signature exists in the events
table and in the operations table when starting from empty tables. -/
theorem audit_inserts_idempotent (t : List EventRow) (r r' : EventRow)
    (u : List OperationRow) (q q' : OperationRow)
    (ecalls : List EventRow) (ocalls : List OperationRow) (s : String)
    (hr : r'.signature = r.signature) (hqq : q'.signature = q.signature)
    (he : ∃ c ∈ ecalls, c.signature = s)
    (ho : ∃ c ∈ ocalls, c.signature = s) :
    insertEventRow r' (insertEventRow r t) = insertEventRow r t ∧
    insertOperationRow q' (insertOperationRow q u) =
      insertOperationRow q u ∧
    countEventSig s (ecalls.foldl (fun tb c => insertEventRow c tb) []) = 1 ∧
    countOperationSig s
      (ocalls.foldl (fun tb c => insertOperationRow c tb) []) = 1 := by
  refine ⟨insertKey_dup EventRow.signature insertEventRow
      (fun _ _ => rfl) t r r' hr,
    insertKey_dup OperationRow.signature insertOperationRow
      (fun _ _ => rfl) u q q' hqq, ?_, ?_⟩
  · have hmain := (insertKey_foldl EventRow.signature insertEventRow
      (fun _ _ => rfl) s ecalls [] (by simp)).2 (Or.inr he)
    simpa [countEventSig] using hmain
  · have hmain := (insertKey_foldl OperationRow.signature insertOperationRow
      (fun _ _ => rfl) s ocalls [] (by simp)).2 (Or.inr ho)
    simpa [countOperationSig] using hmain

/-- Closed instance of insert idempotence at a concrete row. -/
theorem audit_inserts_idempotent_witness :
    insertEventRow (⟨"TokensMinted", none, [], "sigA", 0, 0⟩ : EventRow)
        (insertEventRow ⟨"TokensMinted", none, [], "sigA", 0, 0⟩ []) =
      insertEventRow (⟨"TokensMinted", none, [], "sigA", 0, 0⟩ : EventRow)
        [] ∧
    insertOperationRow
        (⟨"mint", none, none, none, none, "sigA", "confirmed"⟩ :
          OperationRow)
        (insertOperationRow
          ⟨"mint", none, none, none, none, "sigA", "confirmed"⟩ []) =
      insertOperationRow
        (⟨"mint", none, none, none, none, "sigA", "confirmed"⟩ :
          OperationRow) [] ∧
    countEventSig "sigA"
      ([(⟨"TokensMinted", none, [], "sigA", 0, 0⟩ : EventRow)].foldl
        (fun tb c => insertEventRow c tb) []) = 1 ∧
    countOperationSig "sigA"
      ([(⟨"mint", none, none, none, none, "sigA", "confirmed"⟩ :
          OperationRow)].foldl
        (fun tb c => insertOperationRow c tb) []) = 1 :=
  audit_inserts_idempotent [] ⟨"TokensMinted", none, [], "sigA", 0, 0⟩
    ⟨"TokensMinted", none, [], "sigA", 0, 0⟩ []
    ⟨"mint", none, none, none, none, "sigA", "confirmed"⟩
    ⟨"mint", none, none, none, none, "sigA", "confirmed"⟩
    [⟨"TokensMinted", none, [], "sigA", 0, 0⟩]
    [⟨"mint", none, none, none, none, "sigA", "confirmed"⟩] "sigA"
    rfl rfl ⟨⟨"TokensMinted", none, [], "sigA", 0, 0⟩, by simp, rfl⟩
    ⟨⟨"mint", none, none, none, none, "sigA", "confirmed"⟩, by simp, rfl⟩

/-! ### Dispatch characterization -/

theorem dispatchLoop_eq (e : String) (f : List (String × FieldVal))
    (sg : String) (t : Int) (o : Nat → FetchOutcome)
    (ws : List WebhookConfig) :
    dispatchLoop e f sg t o ws =
      (ws.filter fun w => subscribedTo w e).map
        fun w => ⟨w.id, w.url, w.secret, e, f, sg, t, o w.id⟩ := by
  induction ws with
  | nil => rfl
  | cons w ws ih =>
    by_cases hsub : subscribedTo w e = true
    · simp [dispatchLoop, List.filter_cons, hsub, ih]
    · simp [dispatchLoop, List.filter_cons, hsub, ih]

theorem dispatch_eq (e : String) (f : List (String × FieldVal))
    (sg : String) (t : Int) (o : Nat → FetchOutcome)
    (whs : List WebhookConfig) :
    dispatch e f sg t o whs =
      ((whs.filter fun w => w.active == 1).filter
        fun w => subscribedTo w e).map
        fun w => ⟨w.id, w.url, w.secret, e, f, sg, t, o w.id⟩ := by
  rw [dispatch, dispatchLoop_eq]

/-! ### C6: delivery goes exactly to active subscribed registrations -/

/-- C6: dispatch delivers the payload, wrapped with the event type and a
dispatch timestamp and optionally the secret header, to exactly the
active registrations whose subscription set contains the event type or
the wildcard; a webhook subscribed only to TokensMinted gets zero
attempts for a TokensBurned event while a wildcard webhook gets one. -/
theorem dispatch_exactly_subscribed (e : String)
    (f : List (String × FieldVal)) (sg : String) (t : Int)
    (o : Nat → FetchOutcome) (whs : List WebhookConfig) :
    dispatch e f sg t o whs =
      ((whs.filter fun w => w.active == 1).filter
        fun w => subscribedTo w e).map
        (fun w => ⟨w.id, w.url, w.secret, e, f, sg, t, o w.id⟩) ∧
    dispatch "TokensBurned" [] "sig" 0 o
      [register 1 "https://a.example" ["TokensMinted"] none,
       register 2 "https://b.example" ["*"] none] =
      [⟨2, "https://b.example", none, "TokensBurned", [], "sig", 0, o 2⟩] := by
  refine ⟨dispatch_eq e f sg t o whs, ?_⟩
  have hfil : (([register 1 "https://a.example" ["TokensMinted"] none,
      register 2 "https://b.example" ["*"] none].filter
        fun w => w.active == 1).filter
        fun w => subscribedTo w "TokensBurned") =
      [register 2 "https://b.example" ["*"] none] := by decide
  rw [dispatch_eq, hfil]
  rfl

/-! ### Outcome-independence of the pipeline -/

theorem processLine_outcomes (hh : String → List Nat)
    (o o' : Nat → FetchOutcome) (ns nm : Int) (sg : String)
    (st st' : ListenerState) (l : LogLine)
    (he : st.events = st'.events) (hop : st.operations = st'.operations)
    (hw : st.webhooks = st'.webhooks) :
    (processLine hh o ns nm sg st l).events =
      (processLine hh o' ns nm sg st' l).events ∧
    (processLine hh o ns nm sg st l).operations =
      (processLine hh o' ns nm sg st' l).operations ∧
    (processLine hh o ns nm sg st l).webhooks =
      (processLine hh o' ns nm sg st' l).webhooks := by
  cases l with
  | other s => exact ⟨he, hop, hw⟩
  | programData b =>
    cases hdec : decodeAnchorEvent hh b with
    | none =>
      simp only [processLine, hdec]
      exact ⟨he, hop, hw⟩
    | some p =>
      obtain ⟨ty, fields⟩ := p
      simp [processLine, hdec, he, hop, hw]

theorem foldl_processLine_outcomes (hh : String → List Nat)
    (o o' : Nat → FetchOutcome) (ns nm : Int) (sg : String)
    (logs : List LogLine) :
    ∀ st st' : ListenerState, st.events = st'.events →
      st.operations = st'.operations → st.webhooks = st'.webhooks →
      (logs.foldl (processLine hh o ns nm sg) st).events =
        (logs.foldl (processLine hh o' ns nm sg) st').events ∧
      (logs.foldl (processLine hh o ns nm sg) st).operations =
        (logs.foldl (processLine hh o' ns nm sg) st').operations ∧
      (logs.foldl (processLine hh o ns nm sg) st).webhooks =
        (logs.foldl (processLine hh o' ns nm sg) st').webhooks := by
  induction logs with
  | nil =>
    intro st st' he hop hw
    exact ⟨he, hop, hw⟩
  | cons l ls ih =>
    intro st st' he hop hw
    obtain ⟨h1, h2, h3⟩ :=
      processLine_outcomes hh o o' ns nm sg st st' l he hop hw
    exact ih _ _ h1 h2 h3

/-! ### C7: per-subscriber isolation -/

/-- C7: delivery is attempted to every active subscribed registration
whatever the individual outcomes are — the attempted set and everything
sent are independent of the assignment of outcomes (success, non-2xx,
network error), and the persisted event and operation tables are likewise
independent of delivery outcomes. -/
theorem dispatch_isolation (e : String) (f : List (String × FieldVal))
    (sg : String) (t : Int) (o o' : Nat → FetchOutcome)
    (whs : List WebhookConfig) (hh : String → List Nat) (ns nm : Int)
    (st : ListenerState) (li : LogInfo) :
    (dispatch e f sg t o whs).map attemptCore =
      (dispatch e f sg t o' whs).map attemptCore ∧
    (dispatch e f sg t o whs).map (·.webhookId) =
      ((whs.filter fun w => w.active == 1).filter
        fun w => subscribedTo w e).map (·.id) ∧
    (processLog hh o ns nm st li).events =
      (processLog hh o' ns nm st li).events ∧
    (processLog hh o ns nm st li).operations =
      (processLog hh o' ns nm st li).operations := by
  refine ⟨?_, ?_, ?_, ?_⟩
  · rw [dispatch_eq, dispatch_eq]
    simp [List.map_map, attemptCore]
  · rw [dispatch_eq]
    simp [List.map_map]
  · cases herr : li.err
    case false =>
      simp only [processLog, herr, Bool.false_eq_true, if_false]
      exact (foldl_processLine_outcomes hh o o' ns nm li.signature li.logs
        st st rfl rfl rfl).1
    case true => simp [processLog, herr]
  · cases herr : li.err
    case false =>
      simp only [processLog, herr, Bool.false_eq_true, if_false]
      exact (foldl_processLine_outcomes hh o o' ns nm li.signature li.logs
        st st rfl rfl rfl).2.1
    case true => simp [processLog, herr]

/-! ### Decode success forces the buffer to be long enough -/

theorem readU64_ok_shape (data : List Nat) (offset : Nat) (v : String)
    (o1 : Nat) (h : readU64 data offset = .ok (v, o1)) :
    o1 = offset + 8 ∧ offset + 8 ≤ data.length := by
  unfold readU64 at h
  split at h
  · next hle =>
    simp only [Except.ok.injEq, Prod.mk.injEq] at h
    exact ⟨h.2.symm, hle⟩
  · simp at h

theorem readI64_ok_shape (data : List Nat) (offset : Nat) (v : String)
    (o1 : Nat) (h : readI64 data offset = .ok (v, o1)) :
    o1 = offset + 8 ∧ offset + 8 ≤ data.length := by
  unfold readI64 at h
  split at h
  · next hle =>
    simp only [Except.ok.injEq, Prod.mk.injEq] at h
    exact ⟨h.2.symm, hle⟩
  · simp at h

theorem readString_ok_shape (data : List Nat) (offset : Nat)
    (bs : List Nat) (o1 : Nat) (h : readString data offset = .ok (bs, o1)) :
    o1 = offset + 4 + leVal (slice data offset 4) ∧
    offset + 4 ≤ data.length := by
  unfold readString at h
  split at h
  · next hle =>
    simp only [Except.ok.injEq, Prod.mk.injEq] at h
    exact ⟨h.2.symm, hle⟩
  · simp at h

theorem decodeField_ok_adv (ty : FieldTy) (data : List Nat) (offset : Nat)
    (v : FieldVal) (o1 : Nat) (h : decodeField ty data offset = .ok (v, o1)) :
    o1 = fieldAdvance ty data offset := by
  cases ty with
  | pk =>
    simp only [decodeField, readPubkey, Except.ok.injEq,
      Prod.mk.injEq] at h
    rw [fieldAdvance, ← h.2]
  | u64 =>
    simp only [decodeField] at h
    cases hu : readU64 data offset with
    | error e => rw [hu] at h; simp [Except.map] at h
    | ok pr =>
      rw [hu] at h
      simp only [Except.map, Except.ok.injEq, Prod.mk.injEq] at h
      obtain ⟨hsh, -⟩ := readU64_ok_shape data offset pr.1 pr.2 (by
        rw [hu])
      rw [fieldAdvance, ← h.2, hsh]
  | i64 =>
    simp only [decodeField] at h
    cases hu : readI64 data offset with
    | error e => rw [hu] at h; simp [Except.map] at h
    | ok pr =>
      rw [hu] at h
      simp only [Except.map, Except.ok.injEq, Prod.mk.injEq] at h
      obtain ⟨hsh, -⟩ := readI64_ok_shape data offset pr.1 pr.2 (by
        rw [hu])
      rw [fieldAdvance, ← h.2, hsh]
  | boolTy =>
    simp only [decodeField, readBool, Except.ok.injEq,
      Prod.mk.injEq] at h
    rw [fieldAdvance, ← h.2]
  | strTy =>
    simp only [decodeField] at h
    cases hu : readString data offset with
    | error e => rw [hu] at h; simp [Except.map] at h
    | ok pr =>
      rw [hu] at h
      simp only [Except.map, Except.ok.injEq, Prod.mk.injEq] at h
      obtain ⟨hsh, -⟩ := readString_ok_shape data offset pr.1 pr.2 (by
        rw [hu])
      rw [fieldAdvance, ← h.2, hsh]

theorem requiredFrom_cons (nm : String) (ty : FieldTy)
    (rest : List (String × FieldTy)) (data : List Nat) (offset : Nat) :
    requiredFrom ((nm, ty) :: rest) data offset =
      requiredFrom rest data (fieldAdvance ty data offset) := by
  cases ty <;> rfl

theorem decodeFieldsFrom_ok (schema : List (String × FieldTy)) :
    ∀ (data : List Nat) (offset : Nat) (fs : List (String × FieldVal))
      (o1 : Nat), decodeFieldsFrom schema data offset = .ok (fs, o1) →
      o1 = requiredFrom schema data offset ∧
      (endsI64 schema = true → o1 ≤ data.length) := by
  induction schema with
  | nil =>
    intro data offset fs o1 h
    simp only [decodeFieldsFrom, Except.ok.injEq, Prod.mk.injEq] at h
    refine ⟨by rw [requiredFrom, ← h.2], ?_⟩
    intro hend
    simp [endsI64] at hend
  | cons p rest ih =>
    obtain ⟨nm, ty⟩ := p
    intro data offset fs o1 h
    cases hd : decodeField ty data offset with
    | error e =>
      rw [decodeFieldsFrom, hd] at h
      simp at h
    | ok pr =>
      obtain ⟨v, omid⟩ := pr
      rw [decodeFieldsFrom, hd] at h
      dsimp only at h
      cases hrest : decodeFieldsFrom rest data omid with
      | error e => rw [hrest] at h; simp at h
      | ok pr2 =>
        obtain ⟨fs2, o2⟩ := pr2
        rw [hrest] at h
        simp only [Except.ok.injEq, Prod.mk.injEq] at h
        have hadv := decodeField_ok_adv ty data offset v omid hd
        have hih := ih data omid fs2 o2 hrest
        refine ⟨?_, ?_⟩
        · rw [requiredFrom_cons, ← h.2, hih.1, hadv]
        · intro hend
          cases rest with
          | nil =>
            have hty : ty = .i64 := by
              simpa [endsI64] using hend
            subst hty
            simp only [decodeField] at hd
            cases hu : readI64 data offset with
            | error e => rw [hu] at hd; simp [Except.map] at hd
            | ok pru =>
              rw [hu] at hd
              simp only [Except.map, Except.ok.injEq,
                Prod.mk.injEq] at hd
              obtain ⟨hsh, hle⟩ := readI64_ok_shape data offset pru.1
                pru.2 (by rw [hu])
              have ho2 : o2 = omid := by
                rw [decodeFieldsFrom] at hrest
                simp only [Except.ok.injEq, Prod.mk.injEq] at hrest
                exact hrest.2.symm
              omega
          | cons r2 rest2 =>
            have hend2 : endsI64 (r2 :: rest2) = true := hend
            have := hih.2 hend2
            omega

/-! ### C2: a too-short payload never yields a partial record -/

/-- C2: when the matched schema requires more bytes than the payload
contains, the decode throws, the thrown error is caught so the whole
decode yields `none` (no partially populated field map escapes), and the
listener inserts no rows and dispatches no webhooks for that log line and
does not crash. -/
theorem short_payload_decode_fails (hh : String → List Nat)
    (buf : List Nat) (name : EventName) (o : Nat → FetchOutcome)
    (ns nm : Int) (st : ListenerState) (sg : String)
    (hlook : lookupDisc hh (buf.take 8) = some name)
    (hshort : (buf.drop 8).length <
      requiredFrom (eventSchema name) (buf.drop 8) 0) :
    decodeEvent name (buf.drop 8) = .error () ∧
    decodeAnchorEvent hh buf = none ∧
    processLog hh o ns nm st ⟨sg, false, [.programData buf]⟩ = st := by
  have herr : decodeEvent name (buf.drop 8) = .error () := by
    unfold decodeEvent
    cases hdf : decodeFieldsFrom (eventSchema name) (buf.drop 8) 0 with
    | error e => simp [Except.map]
    | ok pr =>
      obtain ⟨fs, o1⟩ := pr
      have hends : endsI64 (eventSchema name) = true := by
        cases name <;> rfl
      obtain ⟨hreq, hle⟩ :=
        decodeFieldsFrom_ok (eventSchema name) (buf.drop 8) 0 fs o1 hdf
      exact absurd (hle hends) (by omega)
  have hnone : decodeAnchorEvent hh buf = none := by
    unfold decodeAnchorEvent
    split
    · rfl
    · simp only [hlook, herr]
  refine ⟨herr, hnone, ?_⟩
  simp [processLog, processLine, hnone]

/-- Closed instance: a recognized discriminator followed by 4 payload
bytes decodes to nothing and changes no state. -/
theorem short_payload_decode_fails_witness :
    decodeEvent .stablecoinInitialized (bufShort.drop 8) = .error () ∧
    decodeAnchorEvent hashZero bufShort = none ∧
    processLog hashZero outcomesNet 0 0 emptyState
      ⟨"s", false, [.programData bufShort]⟩ = emptyState :=
  short_payload_decode_fails hashZero bufShort .stablecoinInitialized
    outcomesNet 0 0 emptyState "s" (by decide) (by decide)

/-! ### C4: the stored slot column -/

theorem processLine_slot_zero (hh : String → List Nat)
    (o : Nat → FetchOutcome) (ns nm : Int) (sg : String)
    (st : ListenerState) (l : LogLine) (r : EventRow)
    (hr : r ∈ (processLine hh o ns nm sg st l).events) :
    r ∈ st.events ∨ r.slot = 0 := by
  cases l with
  | other s => exact Or.inl hr
  | programData b =>
    cases hdec : decodeAnchorEvent hh b with
    | none =>
      simp only [processLine, hdec] at hr
      exact Or.inl hr
    | some p =>
      obtain ⟨ty, fields⟩ := p
      simp only [processLine, hdec] at hr
      rw [insertEvent, insertEventRow] at hr
      split at hr
      · exact Or.inl hr
      · rcases List.mem_append.mp hr with hmem | hmem
        · exact Or.inl hmem
        · right
          have : r = ⟨eventNameStr ty, jsField fields "stablecoin", fields,
              sg, 0, ns⟩ := by simpa using hmem
          rw [this]

theorem foldl_slot_zero (hh : String → List Nat)
    (o : Nat → FetchOutcome) (ns nm : Int) (sg : String)
    (logs : List LogLine) :
    ∀ (st : ListenerState) (r : EventRow),
      r ∈ (logs.foldl (processLine hh o ns nm sg) st).events →
      r ∈ st.events ∨ r.slot = 0 := by
  induction logs with
  | nil => intro st r hr; exact Or.inl hr
  | cons l ls ih =>
    intro st r hr
    rcases ih (processLine hh o ns nm sg st l) r hr with hmem | h0
    · exact processLine_slot_zero hh o ns nm sg st l r hmem
    · exact Or.inr h0

/-- C4 (refuted): every event row the listener inserts carries the literal
slot `0`, not the capture slot of the notification — the callback type
does not even receive the subscription context that holds the slot; at a
concrete decodable notification the stored row has slot 0. -/
theorem event_rows_slot_zero (hh : String → List Nat)
    (o : Nat → FetchOutcome) (ns nm : Int) (st : ListenerState)
    (li : LogInfo) :
    (∀ r ∈ (processLog hh o ns nm st li).events,
      r ∈ st.events ∨ r.slot = 0) ∧
    (processLog hashPaused outcomesNet 7 9 hookState
        pausedNotification).events =
      [⟨"StablecoinPaused", some (.pk (List.replicate 32 0)), pausedFields,
        "sig-1", 0, 7⟩] := by
  constructor
  · intro r hr
    rw [processLog] at hr
    split at hr
    · exact Or.inl hr
    · exact foldl_slot_zero hh o ns nm li.signature li.logs st r hr
  · decide

/-- Closed instance of the slot theorem at a concrete state. -/
theorem event_rows_slot_zero_witness :
    (⟨"E", none, [], "s0", 5, 3⟩ : EventRow) ∈
      ([⟨"E", none, [], "s0", 5, 3⟩] : List EventRow) ∨
    (⟨"E", none, [], "s0", 5, 3⟩ : EventRow).slot = 0 :=
  (event_rows_slot_zero hashZero outcomesNet 0 0
    ⟨[⟨"E", none, [], "s0", 5, 3⟩], [], [], []⟩ ⟨"x", true, []⟩).1
    ⟨"E", none, [], "s0", 5, 3⟩ (by decide)

/-! ### C3: redelivery of an identical notification -/

theorem countSig_zero_any {α : Type} (key : α → String) (s : String)
    (t : List α) (h : (t.filter fun x => key x == s).length = 0) :
    (t.any fun x => key x == s) = false := by
  rw [List.any_eq_false]
  intro x hx hbx
  have hmem : x ∈ t.filter fun x => key x == s :=
    List.mem_filter.mpr ⟨hx, hbx⟩
  have := List.length_pos.mpr (List.ne_nil_of_mem hmem)
  omega

/-- C3 counterexample: redelivering the identical notification leaves one
event row and one operation row but produces a second dispatch attempt to
the same active wildcard-subscribed registration, so "at most one
dispatch attempt per active subscriber" fails. -/
theorem redelivery_double_dispatch_counterexample :
    ¬ (((processLog hashPaused outcomesNet 7 9
        (processLog hashPaused outcomesNet 7 9 hookState
          pausedNotification)
        pausedNotification).attempts.filter
          fun a => a.webhookId == 1).length ≤ 1) := by decide

/-- C3 (amended): two notifications with the same transaction signature
and identical event bytes produce exactly one events row and one
operations row with that signature, but dispatch is keyed off raw
notifications, so each of the two notifications triggers one delivery
attempt per active subscribed registration — two attempts in total. -/
theorem redelivery_single_row (hh : String → List Nat)
    (o : Nat → FetchOutcome) (ns nm : Int) (sg : String) (buf : List Nat)
    (st : ListenerState) (ty : EventName)
    (fields : List (String × FieldVal))
    (hdec : decodeAnchorEvent hh buf = some (ty, fields))
    (he : countEventSig sg st.events = 0)
    (ho : countOperationSig sg st.operations = 0) :
    countEventSig sg (processLog hh o ns nm
      (processLog hh o ns nm st ⟨sg, false, [.programData buf]⟩)
      ⟨sg, false, [.programData buf]⟩).events = 1 ∧
    countOperationSig sg (processLog hh o ns nm
      (processLog hh o ns nm st ⟨sg, false, [.programData buf]⟩)
      ⟨sg, false, [.programData buf]⟩).operations = 1 ∧
    (processLog hh o ns nm
      (processLog hh o ns nm st ⟨sg, false, [.programData buf]⟩)
      ⟨sg, false, [.programData buf]⟩).events =
      (processLog hh o ns nm st ⟨sg, false, [.programData buf]⟩).events ∧
    (processLog hh o ns nm
      (processLog hh o ns nm st ⟨sg, false, [.programData buf]⟩)
      ⟨sg, false, [.programData buf]⟩).operations =
      (processLog hh o ns nm st
        ⟨sg, false, [.programData buf]⟩).operations ∧
    (processLog hh o ns nm st ⟨sg, false, [.programData buf]⟩).attempts =
      st.attempts ++
        dispatch (eventNameStr ty) fields sg nm o st.webhooks ∧
    (processLog hh o ns nm
      (processLog hh o ns nm st ⟨sg, false, [.programData buf]⟩)
      ⟨sg, false, [.programData buf]⟩).attempts =
      st.attempts ++
        dispatch (eventNameStr ty) fields sg nm o st.webhooks ++
        dispatch (eventNameStr ty) fields sg nm o st.webhooks := by
  have hany1 : (st.events.any fun x => x.signature == sg) = false :=
    countSig_zero_any EventRow.signature sg st.events
      (by simpa [countEventSig] using he)
  have hany2 : (st.operations.any fun x => x.signature == sg) = false :=
    countSig_zero_any OperationRow.signature sg st.operations
      (by simpa [countOperationSig] using ho)
  have h1 : processLog hh o ns nm st ⟨sg, false, [.programData buf]⟩ =
      ⟨st.events ++ [⟨eventNameStr ty, jsField fields "stablecoin", fields,
          sg, 0, ns⟩],
        st.operations ++ [⟨(OPERATION_MAP ty).operation,
          jsField fields "stablecoin", (OPERATION_MAP ty).actor fields,
          (OPERATION_MAP ty).amount fields,
          (OPERATION_MAP ty).target fields, sg, "confirmed"⟩],
        st.webhooks,
        st.attempts ++ dispatch (eventNameStr ty) fields sg nm o
          st.webhooks⟩ := by
    simp [processLog, processLine, hdec, insertEvent, insertEventRow,
      insertOperation, insertOperationRow, hany1, hany2]
  have h2 : processLog hh o ns nm
      (processLog hh o ns nm st ⟨sg, false, [.programData buf]⟩)
      ⟨sg, false, [.programData buf]⟩ =
      ⟨st.events ++ [⟨eventNameStr ty, jsField fields "stablecoin", fields,
          sg, 0, ns⟩],
        st.operations ++ [⟨(OPERATION_MAP ty).operation,
          jsField fields "stablecoin", (OPERATION_MAP ty).actor fields,
          (OPERATION_MAP ty).amount fields,
          (OPERATION_MAP ty).target fields, sg, "confirmed"⟩],
        st.webhooks,
        st.attempts ++ dispatch (eventNameStr ty) fields sg nm o
          st.webhooks ++
          dispatch (eventNameStr ty) fields sg nm o st.webhooks⟩ := by
    rw [h1]
    simp [processLog, processLine, hdec, insertEvent, insertEventRow,
      insertOperation, insertOperationRow, List.any_append]
  have he' : (st.events.filter fun r => r.signature == sg).length = 0 := by
    simpa [countEventSig] using he
  have ho' : (st.operations.filter
      fun r => r.signature == sg).length = 0 := by
    simpa [countOperationSig] using ho
  refine ⟨?_, ?_, ?_, ?_, ?_, ?_⟩
  · rw [h2]
    simp [countEventSig, List.filter_append, he']
  · rw [h2]
    simp [countOperationSig, List.filter_append, ho']
  · rw [h2, h1]
  · rw [h2, h1]
  · rw [h1]
  · rw [h2]

/-- Closed instance of the redelivery theorem at a concrete decodable
notification. -/
theorem redelivery_single_row_witness :
    countEventSig "s2" (processLog hashPaused outcomesNet 0 0
      (processLog hashPaused outcomesNet 0 0 emptyState
        ⟨"s2", false, [.programData bufPaused]⟩)
      ⟨"s2", false, [.programData bufPaused]⟩).events = 1 ∧
    countOperationSig "s2" (processLog hashPaused outcomesNet 0 0
      (processLog hashPaused outcomesNet 0 0 emptyState
        ⟨"s2", false, [.programData bufPaused]⟩)
      ⟨"s2", false, [.programData bufPaused]⟩).operations = 1 ∧
    (processLog hashPaused outcomesNet 0 0
      (processLog hashPaused outcomesNet 0 0 emptyState
        ⟨"s2", false, [.programData bufPaused]⟩)
      ⟨"s2", false, [.programData bufPaused]⟩).events =
      (processLog hashPaused outcomesNet 0 0 emptyState
        ⟨"s2", false, [.programData bufPaused]⟩).events ∧
    (processLog hashPaused outcomesNet 0 0
      (processLog hashPaused outcomesNet 0 0 emptyState
        ⟨"s2", false, [.programData bufPaused]⟩)
      ⟨"s2", false, [.programData bufPaused]⟩).operations =
      (processLog hashPaused outcomesNet 0 0 emptyState
        ⟨"s2", false, [.programData bufPaused]⟩).operations ∧
    (processLog hashPaused outcomesNet 0 0 emptyState
      ⟨"s2", false, [.programData bufPaused]⟩).attempts =
      emptyState.attempts ++
        dispatch (eventNameStr .stablecoinPaused) pausedFields "s2" 0
          outcomesNet emptyState.webhooks ∧
    (processLog hashPaused outcomesNet 0 0
      (processLog hashPaused outcomesNet 0 0 emptyState
        ⟨"s2", false, [.programData bufPaused]⟩)
      ⟨"s2", false, [.programData bufPaused]⟩).attempts =
      emptyState.attempts ++
        dispatch (eventNameStr .stablecoinPaused) pausedFields "s2" 0
          outcomesNet emptyState.webhooks ++
        dispatch (eventNameStr .stablecoinPaused) pausedFields "s2" 0
          outcomesNet emptyState.webhooks :=
  redelivery_single_row hashPaused outcomesNet 0 0 "s2" bufPaused
    emptyState .stablecoinPaused pausedFields (by decide) (by decide)
    (by decide)

end SSS
